import Mathlib

/-!
Verification of the justification deduplication and frequency-aggregation
pipeline of `thoth/lab/adviser.py`.

The Python source is shallowly embedded: dataframes become lists of rows,
Python dicts become insertion-ordered association lists, raised exceptions
become `Except` error values, and byte strings become `List Nat` (one `Nat`
per byte, each < 256).  `numpy` datetime64 values are integer ticks, so the
`date` column is modelled as `Int`.

`hashlib.sha256` is implemented in full (FIPS 180-4) over byte lists, and
`str.encode("raw_unicode_escape")` — the encoding `create_final_dataframe`
actually applies to messages — is modelled byte for byte, next to the
standard UTF-8 encoding for comparison with the specification's words.

`sklearn.preprocessing.LabelEncoder.fit_transform` sorts the distinct hex
digest strings and replaces each digest by its rank.  All digests are
64-character lowercase hex strings, so their lexicographic order coincides
with the numeric order of the 256-bit digest values; the embedding encodes
each digest by that numeric value (`jmDigestVal`) and ranks with `≤` on `Nat`.
-/

set_option maxRecDepth 100000

namespace ThothLab

/-- Truncate to an unsigned 32-bit word. -/
def w32 (x : Nat) : Nat := x % 4294967296

/-- Rotate a 32-bit word right by `n` bits. -/
def rotr (n x : Nat) : Nat := w32 ((x >>> n) ||| (x <<< (32 - n)))

def ch (x y z : Nat) : Nat := (x &&& y) ^^^ ((x ^^^ 4294967295) &&& z)

def maj (x y z : Nat) : Nat := (x &&& y) ^^^ (x &&& z) ^^^ (y &&& z)

def bigSigma0 (x : Nat) : Nat := rotr 2 x ^^^ rotr 13 x ^^^ rotr 22 x

def bigSigma1 (x : Nat) : Nat := rotr 6 x ^^^ rotr 11 x ^^^ rotr 25 x

def smallSigma0 (x : Nat) : Nat := rotr 7 x ^^^ rotr 18 x ^^^ (x >>> 3)

def smallSigma1 (x : Nat) : Nat := rotr 17 x ^^^ rotr 19 x ^^^ (x >>> 10)

/-- The 64 SHA-256 round constants (FIPS 180-4, in decimal). -/
def K64 : List Nat :=
  [1116352408, 1899447441, 3049323471, 3921009573, 961987163, 1508970993,
   2453635748, 2870763221, 3624381080, 310598401, 607225278, 1426881987,
   1925078388, 2162078206, 2614888103, 3248222580, 3835390401, 4022224774,
   264347078, 604807628, 770255983, 1249150122, 1555081692, 1996064986,
   2554220882, 2821834349, 2952996808, 3210313671, 3336571891, 3584528711,
   113926993, 338241895, 666307205, 773529912, 1294757372, 1396182291,
   1695183700, 1986661051, 2177026350, 2456956037, 2730485921, 2820302411,
   3259730800, 3345764771, 3516065817, 3600352804, 4094571909, 275423344,
   430227734, 506948616, 659060556, 883997877, 958139571, 1322822218,
   1537002063, 1747873779, 1955562222, 2024104815, 2227730452, 2361852424,
   2428436474, 2756734187, 3204031479, 3329325298]

/-- The SHA-256 initial hash value (in decimal). -/
def H0 : List Nat :=
  [1779033703, 3144134277, 1013904242, 2773480762,
   1359893119, 2600822924, 528734635, 1541459225]

/-- Extend the 16 words of one block to the 64-word message schedule. -/
def messageSchedule (block : List Nat) : List Nat :=
  (List.range 48).foldl
    (fun ws _ =>
      ws ++ [w32 (smallSigma1 (ws.getD (ws.length - 2) 0) + ws.getD (ws.length - 7) 0 +
                  smallSigma0 (ws.getD (ws.length - 15) 0) + ws.getD (ws.length - 16) 0)])
    block

/-- One SHA-256 round: the state is the list `[a, b, c, d, e, f, g, h]`. -/
def roundStep (st : List Nat) (kw : Nat × Nat) : List Nat :=
  let a := st.getD 0 0
  let b := st.getD 1 0
  let c := st.getD 2 0
  let d := st.getD 3 0
  let e := st.getD 4 0
  let f := st.getD 5 0
  let g := st.getD 6 0
  let h := st.getD 7 0
  let t1 := w32 (h + bigSigma1 e + ch e f g + kw.1 + kw.2)
  let t2 := w32 (bigSigma0 a + maj a b c)
  [w32 (t1 + t2), a, b, c, w32 (d + t1), e, f, g]

/-- Compress one 16-word block into the running 8-word hash value. -/
def compressBlock (hv : List Nat) (block : List Nat) : List Nat :=
  let fin := ((K64.zip (messageSchedule block))).foldl roundStep hv
  (hv.zip fin).map (fun p => w32 (p.1 + p.2))

/-- Big-endian bytes of `x`, `nBytes` wide. -/
def toBytesBE (nBytes x : Nat) : List Nat :=
  (List.range nBytes).map (fun i => (x >>> (8 * (nBytes - 1 - i))) &&& 255)

/-- Group bytes four at a time into big-endian 32-bit words. -/
def bytesToWords : List Nat → List Nat
  | b0 :: b1 :: b2 :: b3 :: rest =>
      ((((b0 <<< 8) ||| b1) <<< 8 ||| b2) <<< 8 ||| b3) :: bytesToWords rest
  | _ => []

/-- Split a word list into 16-word blocks (padding always makes the length a
multiple of 16). -/
def toBlocks : List Nat → List (List Nat)
  | w0 :: w1 :: w2 :: w3 :: w4 :: w5 :: w6 :: w7 ::
    w8 :: w9 :: w10 :: w11 :: w12 :: w13 :: w14 :: w15 :: rest =>
      [w0, w1, w2, w3, w4, w5, w6, w7, w8, w9, w10, w11, w12, w13, w14, w15] :: toBlocks rest
  | _ => []

/-- SHA-256 of a byte string, as its 32-byte digest. -/
def sha256 (msg : List Nat) : List Nat :=
  let padded := msg ++ 128 :: List.replicate ((119 - msg.length % 64) % 64) 0 ++
                toBytesBE 8 (8 * msg.length)
  let hv := (toBlocks (bytesToWords padded)).foldl compressBlock H0
  (hv.map (toBytesBE 4)).flatten

def hexChar (n : Nat) : Char := if n < 10 then Char.ofNat (48 + n) else Char.ofNat (87 + n)

/-- Lowercase hex rendering of a byte string (`hashlib`'s `hexdigest`). -/
def hexOfBytes (bs : List Nat) : String :=
  String.mk ((bs.map (fun b => [hexChar (b >>> 4), hexChar (b &&& 15)])).flatten)

/-- Big-endian numeric value of a byte string.  For the 32-byte digests this
value orders exactly as the 64-character lowercase `hexdigest` strings do
lexicographically. -/
def beNat (bs : List Nat) : Nat := bs.foldl (fun a b => a * 256 + b) 0

/-- Lowercase hex digits of `n`, `k` wide, as bytes. -/
def hexDigitsLower (k n : Nat) : List Nat :=
  (List.range k).map (fun i =>
    let d := (n >>> (4 * (k - 1 - i))) &&& 15
    if d < 10 then 48 + d else 87 + d)

/-- One character under Python's `raw_unicode_escape` codec: code points below
U+0100 are emitted as a single Latin-1 byte, code points up to U+FFFF as the
six bytes `\uXXXX`, and larger ones as the ten bytes `\UXXXXXXXX`. -/
def rawUnicodeEscapeChar (c : Char) : List Nat :=
  let n := c.toNat
  if n < 256 then [n]
  else if n < 65536 then 92 :: 117 :: hexDigitsLower 4 n
  else 92 :: 85 :: hexDigitsLower 8 n

/-- Python's `bytes(s, "raw_unicode_escape")`, the encoding
`create_final_dataframe` actually hashes. -/
def rawUnicodeEscape (s : String) : List Nat := (s.data.map rawUnicodeEscapeChar).flatten

/-- One character under UTF-8. -/
def utf8Char (c : Char) : List Nat :=
  let n := c.toNat
  if n < 128 then [n]
  else if n < 2048 then [192 ||| (n >>> 6), 128 ||| (n &&& 63)]
  else if n < 65536 then
    [224 ||| (n >>> 12), 128 ||| ((n >>> 6) &&& 63), 128 ||| (n &&& 63)]
  else
    [240 ||| (n >>> 18), 128 ||| ((n >>> 12) &&& 63), 128 ||| ((n >>> 6) &&& 63), 128 ||| (n &&& 63)]

/-- The UTF-8 encoding of a string. -/
def utf8Encode (s : String) : List Nat := (s.data.map utf8Char).flatten

/-- SHA-256 digest bytes of one message the way `create_final_dataframe`
computes them (adviser.py line 151): over the `raw_unicode_escape` encoding
of the message. -/
def jmDigestBytes (m : String) : List Nat := sha256 (rawUnicodeEscape m)

/-- The message digest as `hexdigest` renders it (adviser.py line 152). -/
def jmHexDigest (m : String) : String := hexOfBytes (jmDigestBytes m)

/-- The digest as a number.  The 64-character lowercase hex digest strings
compare lexicographically exactly as these values compare numerically, so
ranking by `≤` on the values is ranking by the sorted hex digests. -/
def jmDigestVal (m : String) : Nat := beNat (jmDigestBytes m)

/-- Modelled from the spec: the digest §4.2 prescribes, SHA-256 over the UTF-8
bytes of the message — stated only for comparison against the code's
`jmDigestBytes`. -/
def specUtf8DigestBytes (m : String) : List Nat := sha256 (utf8Encode m)

/-- `sklearn.preprocessing.LabelEncoder.fit_transform` (adviser.py lines
155-159): the distinct values are sorted ascending and every input is replaced
by the rank of its value among them. -/
def labelEncoderFitTransform (ds : List Nat) : List Nat :=
  let classes := List.insertionSort (fun a b => a ≤ b) ds.dedup
  ds.map (fun d => classes.indexOf d)

/-- `create_final_dataframe` (adviser.py lines 144-170), restricted to the
column it adds: the `jm_hash_id_encoded` value of every row, in row order.
The input is the `message` column of the adviser dataframe. -/
def create_final_dataframe (msgs : List String) : List Nat :=
  labelEncoderFitTransform (msgs.map jmDigestVal)

/-- The sorted list of distinct digest values of a batch — the `classes_` the
label encoder ranks against. -/
def sortedClasses (msgs : List String) : List Nat :=
  List.insertionSort (fun a b => a ≤ b) ((msgs.map jmDigestVal).dedup)

/-- One justification entry of a product's report. -/
structure Justification where
  message : String
  type : String
deriving DecidableEq

/-- One product of an adviser report; only its `justification` list is read. -/
structure Product where
  justification : List Justification
deriving DecidableEq

/-- An adviser report; `report.get("products")` may be absent. -/
structure Report where
  products : Option (List Product)
deriving DecidableEq

/-- The `result` member of a stored adviser document. -/
structure ResultPayload where
  error : Bool
  error_msg : String
  report : Option Report
deriving DecidableEq

/-- The per-document record the extractor stores in `adviser_dict[ids]`
(fields set at adviser.py lines 81-85 and 135-139). -/
structure AdvRec where
  justification : List Justification
  error : Bool
  message : String
  type : String
deriving DecidableEq

/-- The record built for one product when its justification list is non-empty
(adviser.py lines 133-139); `none` when the list is empty. -/
def mkProductRec (p : Product) : Option AdvRec :=
  match p.justification with
  | [] => none
  | j0 :: _ => some ⟨p.justification, false, j0.message, j0.type⟩

/-- `extract_justifications_from_products` (adviser.py lines 124-141).  The
function only ever reads or writes `adviser_dict[ids]`, so the dict is
modelled by that one optional entry: `cur` is the entry on call, the result
the entry on return.  Every product with a non-empty justification list
overwrites the entry. -/
def extract_justifications_from_products (products : Option (List Product))
    (cur : Option AdvRec) : Option AdvRec :=
  match products with
  | none => cur
  | some ps =>
      ps.foldl (fun acc p =>
        match mkProductRec p with
        | none => acc
        | some r => some r) cur

/-- `extract_adviser_justifications` (adviser.py lines 113-121). -/
def extract_adviser_justifications (report : Option Report) (cur : Option AdvRec) :
    Option AdvRec :=
  match report with
  | none => cur
  | some rep => extract_justifications_from_products rep.products cur

/-- The per-document branch of `aggregate_adviser_results` (adviser.py lines
76-87) once the version matched: an error result yields the ERROR record,
otherwise the justification extraction runs with no prior entry. -/
def processAdviserResult (res : ResultPayload) : Option AdvRec :=
  if res.error then
    some ⟨[⟨res.error_msg, "ERROR"⟩], true, res.error_msg, "ERROR"⟩
  else
    extract_adviser_justifications res.report none

/-- The `metadata` member of a stored adviser document; both fields are read
with `.get`, so each may be absent. -/
structure AdvMetadata where
  datetime : Option String
  analyzer_version : Option String
deriving DecidableEq

/-- A stored adviser document as fetched from Ceph.  `document["metadata"]`
and `document["result"]` raise `KeyError` when absent, so both are optional
here and their absence is an error in the aggregation. -/
structure RawDocument where
  metadata : Option AdvMetadata
  result : Option ResultPayload
deriving DecidableEq

/-- One value of `adviser_dict`: the extracted record plus the `datetime` and
`analyzer_version` fields attached at adviser.py lines 89-91 (absent until
that line runs). -/
structure AdviserEntry where
  record : AdvRec
  datetime : Option String
  analyzer_version : Option String
deriving DecidableEq

/-- The exceptions `aggregate_adviser_results` can raise per document:
`KeyError` for a missing mapping key, `TypeError` for `strptime(None, ...)`. -/
inductive PyError where
  | keyError (key : String)
  | typeError
deriving DecidableEq

/-- Insert or overwrite one key of an insertion-ordered dict. -/
def upsertAssoc {α β : Type} [DecidableEq α] : List (α × β) → α → β → List (α × β)
  | [], k, v => [(k, v)]
  | p :: rest, k, v => if p.1 = k then (k, v) :: rest else p :: upsertAssoc rest k v

/-- Replace the value at one existing key of a dict, in place. -/
def updateAssoc {α β : Type} [DecidableEq α] : List (α × β) → α → (β → β) → List (α × β)
  | [], _, _ => []
  | p :: rest, k, f => if p.1 = k then (p.1, f p.2) :: rest else p :: updateAssoc rest k f

/-- `ids in adviser_dict.keys()`. -/
def memAssoc {α β : Type} [DecidableEq α] (l : List (α × β)) (k : α) : Bool :=
  l.any (fun p => decide (p.1 = k))

/-- The dict after the version-guarded branch of one loop iteration
(adviser.py lines 76-87): an error result overwrites the entry for `ids` with
the ERROR record, a non-error result overwrites it only when some product
justified, and a version mismatch leaves the dict alone. -/
def aggregateDict1 (adv : String) (dict : List (String × AdviserEntry)) (ids : String)
    (md : AdvMetadata) (res : ResultPayload) : List (String × AdviserEntry) :=
  if md.analyzer_version = some adv then
    if res.error then
      upsertAssoc dict ids
        ⟨⟨[⟨res.error_msg, "ERROR"⟩], true, res.error_msg, "ERROR"⟩, none, none⟩
    else
      match extract_adviser_justifications res.report none with
      | none => dict
      | some r => upsertAssoc dict ids ⟨r, none, none⟩
  else dict

/-- One iteration of the loop of `aggregate_adviser_results` (adviser.py lines
69-96): the metadata and result lookups run for every document, the record is
produced only under the version guard, and the datetime/analyzer_version
attachment runs whenever the current id has an entry.  `strptime` is modelled
as keeping the string; it raises (`TypeError`) when `metadata.get("datetime")`
returned `None`. -/
def aggregateStep (adv : String) (dict : List (String × AdviserEntry)) (ids : String)
    (doc : RawDocument) : Except PyError (List (String × AdviserEntry)) :=
  match doc.metadata with
  | none => .error (.keyError "metadata")
  | some md =>
      match doc.result with
      | none => .error (.keyError "result")
      | some res =>
          let dict1 := aggregateDict1 adv dict ids md res
          if memAssoc dict1 ids then
            match md.datetime with
            | none => .error .typeError
            | some _ =>
                .ok (updateAssoc dict1 ids
                      (fun entry => ⟨entry.record, md.datetime, md.analyzer_version⟩))
          else .ok dict1

/-- The document loop of `aggregate_adviser_results`, folded over the fetched
batch with the running `adviser_dict`.  An exception in any iteration
propagates: there is no try/except in the source. -/
def aggregateAux (adv : String) :
    List (String × AdviserEntry) → List (String × RawDocument) →
      Except PyError (List (String × AdviserEntry))
  | dict, [] => .ok dict
  | dict, (ids, doc) :: rest =>
      match aggregateStep adv dict ids doc with
      | .error err => .error err
      | .ok dict2 => aggregateAux adv dict2 rest

/-- `aggregate_adviser_results` (adviser.py lines 49-99) on an already-fetched
batch of `(id, document)` pairs, with `limit_results = False`.  The resulting
dict is returned directly; `_create_adviser_dataframe` only reshapes it. -/
def aggregate_adviser_results (adv : String) (batch : List (String × RawDocument)) :
    Except PyError (List (String × AdviserEntry)) :=
  aggregateAux adv [] batch

/-- One row of the final dataframe, as read by the histogram and heatmap
aggregators (`jm_hash_id_encoded`, `message`, `type`, `date`).  Dates are
datetime64 ticks, modelled as integers. -/
structure FinalRow where
  jm_hash_id_encoded : Nat
  message : String
  type : String
  date : Int
deriving DecidableEq

/-- `plot_df["jm_hash_id_encoded"].value_counts()[c]`: the number of rows of
the frame carrying class `c`. -/
def value_counts (rows : List FinalRow) (c : Nat) : Nat :=
  (rows.filter (fun r => decide (r.jm_hash_id_encoded = c))).length

/-- One value of `histogram_data` in `create_adviser_results_histogram`. -/
structure HistEntry where
  label : String
  message : String
  type : String
  count : Nat
deriving DecidableEq

/-- `create_adviser_results_histogram` (adviser.py lines 173-228) up to its
returned `justifications_df`: one entry per first-seen class id, with the
corpus-wide count, sorted by count descending.  On an empty frame the
`sort_values` call raises `KeyError` (no `count` column exists), hence the
error result.  `histStep` is the body of its accumulation loop (lines
180-187). -/
def histStep (rows : List FinalRow) (acc : List (Nat × HistEntry)) (row : FinalRow) :
    List (Nat × HistEntry) :=
  if acc.any (fun p => decide (p.1 = row.jm_hash_id_encoded)) then acc
  else acc ++ [(row.jm_hash_id_encoded,
    ⟨"type-" ++ toString row.jm_hash_id_encoded, row.message, row.type,
      value_counts rows row.jm_hash_id_encoded⟩)]

/-- The corpus-wide aggregation: fold the rows through `histStep`, then sort
by count descending, failing on an empty frame. -/
def create_adviser_results_histogram (rows : List FinalRow) :
    Except Unit (List (Nat × HistEntry)) :=
  match rows with
  | [] => .error ()
  | _ => .ok (List.insertionSort (fun p q => q.2.count ≤ p.2.count)
                (rows.foldl (histStep rows) []))

/-- The exceptions `_aggregate_data_per_interval` can raise: `min()` of an
empty sequence (empty input), and `timestamps[0] = begin` on the empty
timestamp list produced by `intervals <= 0` (or the division by zero for
`intervals = 0`). -/
inductive AggError where
  | emptyInput
  | invalidIntervals
deriving DecidableEq

/-- One value of `aggregated_data[high]` in `_aggregate_data_per_interval`. -/
structure IntervalBucketEntry where
  label : String
  message : String
  count : Nat
deriving DecidableEq

/-- The timestamp list of `_aggregate_data_per_interval` (adviser.py lines
235-242): `intervals` accumulated steps of `delta`, then index 0 overwritten
with `begin` and the last index with `end`. -/
def buildTimestamps (b e : Int) (intervals : Int) : List Int :=
  let delta := (e - b) / intervals
  let ts := (List.range intervals.toNat).map (fun i => b + ((i : Int) + 1) * delta)
  (ts.set 0 b).set (ts.length - 1) e

/-- `df[(df["date"] >= low) & (df["date"] <= high)]`. -/
def subsetBetween (recs : List FinalRow) (low high : Int) : List FinalRow :=
  recs.filter (fun r => decide (low ≤ r.date) && decide (r.date ≤ high))

/-- The inner loop of `_aggregate_data_per_interval` (adviser.py lines
253-259): one entry per first-seen class id of the subset, counted within the
subset. -/
def bucketFor (subset : List FinalRow) : List (Nat × IntervalBucketEntry) :=
  subset.foldl (fun bd r =>
    if bd.any (fun p => decide (p.1 = r.jm_hash_id_encoded)) then bd
    else bd ++ [(r.jm_hash_id_encoded,
      ⟨"type-" ++ toString r.jm_hash_id_encoded, r.message,
        value_counts subset r.jm_hash_id_encoded⟩)]) []

/-- `_aggregate_data_per_interval` (adviser.py lines 231-261).  Note the
source's bucket bounds: for bucket `l` the lower bound is `timestamps[l - 1]`,
which for `l = 0` wraps around to the LAST timestamp, and both bounds are
inclusive. -/
def _aggregate_data_per_interval (recs : List FinalRow) (intervals : Int) :
    Except AggError (List (Int × List (Nat × IntervalBucketEntry))) :=
  match recs.map FinalRow.date with
  | [] => .error .emptyInput
  | d :: ds =>
      let b := ds.foldl min d
      let e := ds.foldl max d
      let ts := buildTimestamps b e intervals
      if ts.isEmpty then .error .invalidIntervals
      else
        .ok ((List.range ts.length).foldl (fun agg l =>
          let low := ts.getD ((l + ts.length - 1) % ts.length) 0
          let high := ts.getD l 0
          upsertAssoc agg high (bucketFor (subsetBetween recs low high))) [])

/-- Total count recorded for class `c` across all interval buckets (0 on an
error result). -/
def classTotalOverIntervals
    (res : Except AggError (List (Int × List (Nat × IntervalBucketEntry)))) (c : Nat) : Nat :=
  match res with
  | .error _ => 0
  | .ok buckets =>
      (buckets.map (fun bkt =>
        match bkt.2.find? (fun p => decide (p.1 = c)) with
        | none => 0
        | some p => p.2.count)).sum

/-- Metadata shared by the concrete example documents. -/
def demoMeta : AdvMetadata := ⟨some "2020-01-01T00:00:00.000000", some "0.7.3"⟩

/-- A well-formed document for version 0.7.3 whose single product justifies
with message `msg`. -/
def demoGoodDoc (msg : String) : RawDocument :=
  ⟨some demoMeta, some ⟨false, "", some ⟨some [⟨[⟨msg, "INFO"⟩]⟩]⟩⟩⟩

/-- A malformed document: the `result` key is missing. -/
def demoMalformedDoc : RawDocument := ⟨some demoMeta, none⟩

/-- A batch of five documents of which exactly one is malformed. -/
def c6batch : List (String × RawDocument) :=
  [("doc-1", demoGoodDoc "m1"), ("doc-2", demoGoodDoc "m2"), ("doc-3", demoMalformedDoc),
   ("doc-4", demoGoodDoc "m4"), ("doc-5", demoGoodDoc "m5")]

/-- A single-document batch whose document matches version 0.7.3. -/
def c10batch : List (String × RawDocument) := [("doc-1", demoGoodDoc "m1")]

/-- The table `aggregate_adviser_results` produces for `c10batch`. -/
def c10table : List (String × AdviserEntry) :=
  [("doc-1", ⟨⟨[⟨"m1", "INFO"⟩], false, "m1", "INFO"⟩,
    some "2020-01-01T00:00:00.000000", some "0.7.3"⟩)]

/-- Four records of one class at equally spaced dates 0, 1, 2, 3. -/
def c3recs : List FinalRow :=
  [⟨0, "m", "INFO", 0⟩, ⟨0, "m", "INFO", 1⟩, ⟨0, "m", "INFO", 2⟩, ⟨0, "m", "INFO", 3⟩]

/-- Three classified rows over two classes. -/
def c4rows : List FinalRow :=
  [⟨0, "m0", "INFO", 0⟩, ⟨1, "m1", "ERROR", 1⟩, ⟨0, "m0", "INFO", 2⟩]

/-- A single classified record. -/
def c8recs : List FinalRow := [⟨0, "m0", "INFO", 0⟩]

end ThothLab

namespace ThothLab

/-- Known-answer test: SHA-256 of the empty message. -/
theorem sha256_empty :
    hexOfBytes (sha256 []) =
      "e3b0c44298fc1c149afbf4c8996fb92427ae41e4649b934ca495991b7852b855" := by decide

/-- Known-answer test: SHA-256 of the ASCII string "abc". -/
theorem sha256_abc :
    hexOfBytes (sha256 (utf8Encode "abc")) =
      "ba7816bf8f01cfea414140de5dae2223b00361a396177a9cb410ff61f20015ad" := by decide

/-- Claim C5: a document whose result has `error` true yields exactly one
record with isError true, message `error_msg` and type "ERROR"; a document
with `error` false and products `[{justification: [{m1, INFO}]},
{justification: []}]` yields exactly one record with isError false, message
"m1" and type "INFO". -/
theorem c5_theorem :
    processAdviserResult ⟨true, "boom", none⟩ =
      some ⟨[⟨"boom", "ERROR"⟩], true, "boom", "ERROR"⟩ ∧
    processAdviserResult ⟨false, "", some ⟨some [⟨[⟨"m1", "INFO"⟩]⟩, ⟨[]⟩]⟩⟩ =
      some ⟨[⟨"m1", "INFO"⟩], false, "m1", "INFO"⟩ := by
  exact ⟨rfl, rfl⟩

/-- Claim C7: the time-bucketed aggregator fails on zero records — `min()`
raises before anything is computed or returned — for every intervals
argument. -/
theorem c7_theorem (intervals : Int) :
    _aggregate_data_per_interval [] intervals = .error .emptyInput := rfl

/-- Claim C2, counterexample: with two products both carrying non-empty
justification lists, the emitted record's message is the LAST matching
product's first entry ("m2"), not the first matching product's ("m1"): the
claim is false as stated. -/
theorem c2_counterexample :
    (extract_justifications_from_products
        (some [⟨[⟨"m1", "INFO"⟩]⟩, ⟨[⟨"m2", "WARNING"⟩]⟩]) none).map AdvRec.message
      = some "m2" ∧
    (extract_justifications_from_products
        (some [⟨[⟨"m1", "INFO"⟩]⟩, ⟨[⟨"m2", "WARNING"⟩]⟩]) none).map AdvRec.message
      ≠ some "m1" := by
  exact ⟨rfl, by decide⟩

/-- Claim C8, counterexample: on the empty input with `intervals = 0` the
aggregator fails with the empty-input error (the `min()` call raises first),
not the invalid-argument error the claim promises for every input. -/
theorem c8_counterexample :
    _aggregate_data_per_interval [] 0 = .error .emptyInput ∧
      (Except.error AggError.emptyInput :
          Except AggError (List (Int × List (Nat × IntervalBucketEntry)))) ≠
        .error .invalidIntervals := by
  refine ⟨rfl, fun h => ?_⟩
  injection h with h2
  exact AggError.noConfusion h2

/-- Claim C6, counterexample: a batch of five documents of which one is
malformed (missing `result`) makes the whole aggregation raise `KeyError` —
it yields an error, not a four-record table. -/
theorem c6_counterexample :
    aggregate_adviser_results "0.7.3" c6batch = .error (.keyError "result") := rfl

/-- Claim C3, evaluated at the failing input: four records of one class at
dates 0, 1, 2, 3 with `intervals = 3`.  The record at date 2 lands in two
buckets ([0,2] and [2,3]), so the class's total over all intervals is 5 while
the corpus-wide count is 4 — the intervals do not partition the records. -/
theorem c3_theorem :
    classTotalOverIntervals (_aggregate_data_per_interval c3recs 3) 0 = 5 ∧
      value_counts c3recs 0 = 4 := by
  exact ⟨rfl, rfl⟩

/-- Claim C1, counterexample: the two distinct messages "ā" (U+0101) and the
six-character literal backslash-u-0-1-0-1 have identical `raw_unicode_escape`
encodings, hence identical digests, and both rows receive classId 0: classIds
do not separate byte-distinct messages, and only one classId is used for two
distinct messages. -/
theorem c1_counterexample :
    create_final_dataframe ["ā", "\\u0101"] = [0, 0] ∧ ("ā" : String) ≠ "\\u0101" := by
  exact ⟨by decide, by decide⟩

/-- Claim C9, counterexample: for the message "é" the digest the code
computes (SHA-256 of the `raw_unicode_escape` byte 0xE9) differs from SHA-256
of the UTF-8 encoding (bytes 0xC3 0xA9): the deduplication digest is not the
SHA-256 of the UTF-8 encoding. -/
theorem c9_counterexample : jmDigestBytes "é" ≠ specUtf8DigestBytes "é" := by decide

/-- On code points below 128 the `raw_unicode_escape` codec and UTF-8 agree:
both emit the single byte of the code point. -/
theorem rawUnicodeEscapeChar_ascii (c : Char) (h : c.toNat < 128) :
    rawUnicodeEscapeChar c = utf8Char c := by
  unfold rawUnicodeEscapeChar utf8Char
  rw [if_pos (by omega : c.toNat < 256), if_pos h]

/-- Claim C9, amended: the deduplication digest is SHA-256 over the
`raw_unicode_escape` encoding of the message; it coincides with SHA-256 over
the UTF-8 encoding exactly when every character of the message is ASCII. -/
theorem c9_amended (m : String) (h : ∀ c ∈ m.data, c.toNat < 128) :
    jmDigestBytes m = specUtf8DigestBytes m := by
  unfold jmDigestBytes specUtf8DigestBytes
  congr 1
  unfold rawUnicodeEscape utf8Encode
  congr 1
  exact List.map_congr_left (fun c hc => rawUnicodeEscapeChar_ascii c (h c hc))

/-- Witness for C9 amended at the ASCII message "adviser". -/
theorem c9_witness :
    (∀ c ∈ ("adviser" : String).data, c.toNat < 128) ∧
      jmDigestBytes "adviser" = specUtf8DigestBytes "adviser" :=
  ⟨by decide, c9_amended "adviser" (by decide)⟩

/-- With a non-positive intervals argument the timestamp list is empty: the
accumulation loop `range(1, intervals + 1)` never runs. -/
theorem buildTimestamps_nonpos (b e intervals : Int) (h : intervals ≤ 0) :
    buildTimestamps b e intervals = [] := by
  unfold buildTimestamps
  simp [Int.toNat_of_nonpos h]

/-- Claim C8, amended: for every NON-EMPTY input, a zero or negative intervals
argument makes the aggregator fail with the invalid-argument error (the
`timestamps[0] = begin` assignment on the empty timestamp list); on empty
input the empty-input failure of `min()` occurs first. -/
theorem c8_amended (recs : List FinalRow) (intervals : Int)
    (hne : recs ≠ []) (hiv : intervals ≤ 0) :
    _aggregate_data_per_interval recs intervals = .error .invalidIntervals := by
  match recs, hne with
  | r :: rs, _ =>
    unfold _aggregate_data_per_interval
    simp only [List.map_cons]
    rw [buildTimestamps_nonpos _ _ _ hiv]
    rfl

/-- Witness for C8 amended at a one-record input and `intervals = 0`. -/
theorem c8_witness :
    (c8recs ≠ [] ∧ (0 : Int) ≤ 0) ∧
      _aggregate_data_per_interval c8recs 0 = .error .invalidIntervals :=
  ⟨⟨by decide, by decide⟩, c8_amended c8recs 0 (by decide) (by decide)⟩

/-- Unfolding step of the product loop: one iteration, then the rest. -/
theorem extract_cons (p : Product) (ps : List Product) (cur : Option AdvRec) :
    extract_justifications_from_products (some (p :: ps)) cur =
      extract_justifications_from_products (some ps)
        (match mkProductRec p with | none => cur | some r => some r) := rfl

/-- Claim C2, amended: the record emitted from a product list comes from the
LAST product whose justification list is non-empty (the loop overwrites the
entry on every match); its message and type are that product's first
justification entry.  When no product matches, the prior entry is kept. -/
theorem c2_amended (ps : List Product) (cur : Option AdvRec) :
    extract_justifications_from_products (some ps) cur =
      match (ps.filterMap mkProductRec).getLast? with
      | none => cur
      | some r => some r := by
  induction ps generalizing cur with
  | nil => rfl
  | cons p ps ih =>
    rw [extract_cons, List.filterMap_cons]
    cases hmk : mkProductRec p with
    | none => exact ih cur
    | some r =>
        rw [ih (some r)]
        cases hl : ps.filterMap mkProductRec with
        | nil => rfl
        | cons q qs =>
            rw [List.getLast?_cons_cons]
            cases hx : (q :: qs).getLast? with
            | none => exact absurd (List.getLast?_eq_none_iff.mp hx) (by simp)
            | some x => rfl

/-- A malformed document (missing `metadata` or `result`) makes its iteration
of the aggregation loop raise a `KeyError`. -/
theorem aggregateStep_malformed (adv : String) (dict : List (String × AdviserEntry))
    (ids : String) (doc : RawDocument)
    (h : doc.metadata = none ∨ doc.result = none) :
    ∃ err, aggregateStep adv dict ids doc = .error err := by
  unfold aggregateStep
  cases hmd : doc.metadata with
  | none => exact ⟨.keyError "metadata", rfl⟩
  | some md =>
      cases hres : doc.result with
      | none => exact ⟨.keyError "result", rfl⟩
      | some res =>
          rcases h with h | h
          · rw [hmd] at h; cases h
          · rw [hres] at h; cases h

/-- The aggregation loop propagates the exception of any malformed document in
the remaining batch, whatever the dict built so far. -/
theorem aggregateAux_malformed (adv : String) (batch : List (String × RawDocument)) :
    ∀ dict, (∃ item ∈ batch, item.2.metadata = none ∨ item.2.result = none) →
      ∃ err, aggregateAux adv dict batch = .error err := by
  induction batch with
  | nil =>
      intro dict h
      obtain ⟨item, hmem, _⟩ := h
      cases hmem
  | cons hd tl ih =>
      intro dict h
      obtain ⟨ids, doc⟩ := hd
      cases hstep : aggregateStep adv dict ids doc with
      | error err => exact ⟨err, by unfold aggregateAux; rw [hstep]⟩
      | ok dict2 =>
          obtain ⟨item, hmem, hbad⟩ := h
          rcases List.mem_cons.mp hmem with heq | hmem2
          · subst heq
            obtain ⟨err, herr⟩ := aggregateStep_malformed adv dict ids doc hbad
            rw [herr] at hstep
            cases hstep
          · obtain ⟨err, herr⟩ := ih dict2 ⟨item, hmem2, hbad⟩
            exact ⟨err, by unfold aggregateAux; rw [hstep]; exact herr⟩

/-- Claim C6, amended: a malformed document (missing `metadata` or `result`)
aborts the ENTIRE aggregation — the `KeyError` propagates out of the loop, so
no table is returned at all; the batch is not processed with the bad document
skipped. -/
theorem c6_amended (adv : String) (batch : List (String × RawDocument))
    (h : ∃ item ∈ batch, item.2.metadata = none ∨ item.2.result = none) :
    ∃ err, aggregate_adviser_results adv batch = .error err :=
  aggregateAux_malformed adv batch [] h

/-- Witness for C6 amended at the five-document batch with one malformed
document. -/
theorem c6_witness :
    (∃ item ∈ c6batch, item.2.metadata = none ∨ item.2.result = none) ∧
      ∃ err, aggregate_adviser_results "0.7.3" c6batch = .error err :=
  ⟨by decide, c6_amended "0.7.3" c6batch (by decide)⟩

/-- Keys after an upsert: the old keys plus possibly the new one. -/
theorem upsertAssoc_keys {α β : Type} [DecidableEq α] (d : List (α × β)) (k : α) (v : β)
    (x : α) : x ∈ (upsertAssoc d k v).map Prod.fst ↔ x ∈ d.map Prod.fst ∨ x = k := by
  induction d with
  | nil => simp [upsertAssoc]
  | cons p rest ih =>
      by_cases hpk : p.1 = k
      · rw [show (p :: rest : List (α × β)) = (p.1, p.2) :: rest from rfl]
        simp [upsertAssoc, hpk]
        tauto
      · simp [upsertAssoc, hpk, ih]
        tauto

/-- An in-place update leaves the key list unchanged. -/
theorem updateAssoc_keys {α β : Type} [DecidableEq α] (d : List (α × β)) (k : α)
    (f : β → β) : (updateAssoc d k f).map Prod.fst = d.map Prod.fst := by
  induction d with
  | nil => rfl
  | cons p rest ih =>
      by_cases hpk : p.1 = k <;> simp [updateAssoc, hpk, ih]

/-- Provenance of the keys present after the version-guarded branch. -/
theorem aggregateDict1_keys (adv : String) (dict : List (String × AdviserEntry))
    (ids : String) (md : AdvMetadata) (res : ResultPayload) (x : String)
    (hx : x ∈ (aggregateDict1 adv dict ids md res).map Prod.fst) :
    x ∈ dict.map Prod.fst ∨ (x = ids ∧ md.analyzer_version = some adv) := by
  unfold aggregateDict1 at hx
  by_cases hv : md.analyzer_version = some adv
  · rw [if_pos hv] at hx
    by_cases herr : res.error = true
    · rw [if_pos herr] at hx
      rcases (upsertAssoc_keys _ _ _ _).mp hx with h | h
      · exact .inl h
      · exact .inr ⟨h, hv⟩
    · rw [if_neg herr] at hx
      cases hext : extract_adviser_justifications res.report none with
      | none => rw [hext] at hx; exact .inl hx
      | some r =>
          rw [hext] at hx
          rcases (upsertAssoc_keys _ _ _ _).mp hx with h | h
          · exact .inl h
          · exact .inr ⟨h, hv⟩
  · rw [if_neg hv] at hx
    exact .inl hx

/-- On a version mismatch the guarded branch leaves the dict untouched. -/
theorem aggregateDict1_nomatch (adv : String) (dict : List (String × AdviserEntry))
    (ids : String) (md : AdvMetadata) (res : ResultPayload)
    (hv : md.analyzer_version ≠ some adv) :
    aggregateDict1 adv dict ids md res = dict := by
  unfold aggregateDict1
  rw [if_neg hv]

/-- A document without `metadata` raises in its loop iteration. -/
theorem aggregateStep_noMeta (adv : String) (dict : List (String × AdviserEntry))
    (ids : String) (rdo : Option ResultPayload) :
    aggregateStep adv dict ids ⟨none, rdo⟩ = .error (.keyError "metadata") := rfl

/-- A document without `result` raises in its loop iteration. -/
theorem aggregateStep_noResult (adv : String) (dict : List (String × AdviserEntry))
    (ids : String) (md : AdvMetadata) :
    aggregateStep adv dict ids ⟨some md, none⟩ = .error (.keyError "result") := rfl

/-- Unfolding of one loop iteration on a document carrying both keys. -/
theorem aggregateStep_eq (adv : String) (dict : List (String × AdviserEntry))
    (ids : String) (md : AdvMetadata) (res : ResultPayload) :
    aggregateStep adv dict ids ⟨some md, some res⟩ =
      (if memAssoc (aggregateDict1 adv dict ids md res) ids then
        match md.datetime with
        | none => .error .typeError
        | some _ =>
            .ok (updateAssoc (aggregateDict1 adv dict ids md res) ids
                  (fun entry => ⟨entry.record, md.datetime, md.analyzer_version⟩))
      else .ok (aggregateDict1 adv dict ids md res)) := rfl

/-- Provenance of the keys present after one whole loop iteration. -/
theorem aggregateStep_ok_keys (adv : String) (dict : List (String × AdviserEntry))
    (ids : String) (doc : RawDocument) (dict2 : List (String × AdviserEntry))
    (hok : aggregateStep adv dict ids doc = .ok dict2) (x : String)
    (hx : x ∈ dict2.map Prod.fst) :
    x ∈ dict.map Prod.fst ∨
      (x = ids ∧ ∃ md, doc.metadata = some md ∧ md.analyzer_version = some adv) := by
  obtain ⟨mdo, rdo⟩ := doc
  cases mdo with
  | none => rw [aggregateStep_noMeta] at hok; cases hok
  | some md =>
      cases rdo with
      | none => rw [aggregateStep_noResult] at hok; cases hok
      | some res =>
          rw [aggregateStep_eq] at hok
          by_cases hmem : memAssoc (aggregateDict1 adv dict ids md res) ids = true
          · rw [if_pos hmem] at hok
            cases hdt : md.datetime with
            | none => rw [hdt] at hok; cases hok
            | some dt =>
                rw [hdt] at hok
                cases hok
                rw [updateAssoc_keys] at hx
                rcases aggregateDict1_keys adv dict ids md res x hx with h | ⟨h1, h2⟩
                · exact .inl h
                · exact .inr ⟨h1, md, rfl, h2⟩
          · rw [if_neg hmem] at hok
            cases hok
            rcases aggregateDict1_keys adv dict ids md res x hx with h | ⟨h1, h2⟩
            · exact .inl h
            · exact .inr ⟨h1, md, rfl, h2⟩

/-- When a document's version does not match, its iteration preserves the key
list exactly. -/
theorem aggregateStep_nomatch_keys (adv : String) (dict : List (String × AdviserEntry))
    (ids : String) (doc : RawDocument) (dict2 : List (String × AdviserEntry))
    (hok : aggregateStep adv dict ids doc = .ok dict2)
    (hno : ∀ md, doc.metadata = some md → md.analyzer_version ≠ some adv) :
    dict2.map Prod.fst = dict.map Prod.fst := by
  obtain ⟨mdo, rdo⟩ := doc
  cases mdo with
  | none => rw [aggregateStep_noMeta] at hok; cases hok
  | some md =>
      cases rdo with
      | none => rw [aggregateStep_noResult] at hok; cases hok
      | some res =>
          rw [aggregateStep_eq] at hok
          rw [aggregateDict1_nomatch adv dict ids md res (hno md rfl)] at hok
          by_cases hmem : memAssoc dict ids = true
          · rw [if_pos hmem] at hok
            cases hdt : md.datetime with
            | none => rw [hdt] at hok; cases hok
            | some dt =>
                rw [hdt] at hok
                cases hok
                exact updateAssoc_keys _ _ _
          · rw [if_neg hmem] at hok
            cases hok
            rfl

/-- Provenance of the keys of the table built by the whole loop. -/
theorem aggregateAux_ok_keys (adv : String) (batch : List (String × RawDocument)) :
    ∀ dict tbl, aggregateAux adv dict batch = .ok tbl →
      ∀ x, x ∈ tbl.map Prod.fst →
        x ∈ dict.map Prod.fst ∨
          ∃ item ∈ batch, item.1 = x ∧
            ∃ md, item.2.metadata = some md ∧ md.analyzer_version = some adv := by
  induction batch with
  | nil =>
      intro dict tbl h x hx
      cases h
      exact .inl hx
  | cons hd tl ih =>
      intro dict tbl h x hx
      obtain ⟨ids, doc⟩ := hd
      unfold aggregateAux at h
      cases hstep : aggregateStep adv dict ids doc with
      | error err => rw [hstep] at h; cases h
      | ok dict2 =>
          rw [hstep] at h
          rcases ih dict2 tbl h x hx with hin | ⟨item, hmem, hitem⟩
          · rcases aggregateStep_ok_keys adv dict ids doc dict2 hstep x hin with
              h1 | ⟨hx1, md, hmd, hv⟩
            · exact .inl h1
            · exact .inr ⟨(ids, doc), List.mem_cons_self _ _, hx1.symm, md, hmd, hv⟩
          · exact .inr ⟨item, List.mem_cons_of_mem _ hmem, hitem⟩

/-- When no document of the batch matches the version, the loop preserves the
key list exactly. -/
theorem aggregateAux_nomatch (adv : String) (batch : List (String × RawDocument)) :
    ∀ dict tbl,
      (∀ item ∈ batch, ∀ md, item.2.metadata = some md → md.analyzer_version ≠ some adv) →
      aggregateAux adv dict batch = .ok tbl → tbl.map Prod.fst = dict.map Prod.fst := by
  induction batch with
  | nil =>
      intro dict tbl _ h
      cases h
      rfl
  | cons hd tl ih =>
      intro dict tbl hno h
      obtain ⟨ids, doc⟩ := hd
      unfold aggregateAux at h
      cases hstep : aggregateStep adv dict ids doc with
      | error err => rw [hstep] at h; cases h
      | ok dict2 =>
          rw [hstep] at h
          rw [ih dict2 tbl (fun item hm => hno item (List.mem_cons_of_mem _ hm)) h]
          exact aggregateStep_nomatch_keys adv dict ids doc dict2 hstep
            (hno (ids, doc) (List.mem_cons_self _ _))

/-- Claim C10: every row of the table returned by `aggregate_adviser_results`
comes from a batch document whose metadata `analyzer_version` equals the
requested adviser version, and a batch with no such document yields an empty
table — documents of any other version produce no record at all. -/
theorem c10_theorem (adv : String) (batch : List (String × RawDocument))
    (tbl : List (String × AdviserEntry))
    (h : aggregate_adviser_results adv batch = .ok tbl) :
    (∀ p ∈ tbl, ∃ item ∈ batch, item.1 = p.1 ∧
        ∃ md, item.2.metadata = some md ∧ md.analyzer_version = some adv) ∧
      ((∀ item ∈ batch, ∀ md, item.2.metadata = some md → md.analyzer_version ≠ some adv) →
        tbl = []) := by
  constructor
  · intro p hp
    have hx : p.1 ∈ tbl.map Prod.fst := List.mem_map_of_mem Prod.fst hp
    rcases aggregateAux_ok_keys adv batch [] tbl h p.1 hx with hin | hfound
    · simp at hin
    · exact hfound
  · intro hno
    have h2 := aggregateAux_nomatch adv batch [] tbl hno h
    simpa using h2

/-- Witness for C10 at a one-document batch whose document matches the
requested version. -/
theorem c10_witness :
    aggregate_adviser_results "0.7.3" c10batch = .ok c10table ∧
      ((∀ p ∈ c10table, ∃ item ∈ c10batch, item.1 = p.1 ∧
          ∃ md, item.2.metadata = some md ∧ md.analyzer_version = some "0.7.3") ∧
        ((∀ item ∈ c10batch, ∀ md, item.2.metadata = some md →
            md.analyzer_version ≠ some "0.7.3") → c10table = [])) :=
  ⟨rfl, c10_theorem "0.7.3" c10batch c10table rfl⟩

/-- An `any` over key equalities is membership in the key list. -/
theorem any_key_eq {γ : Type} (acc : List (Nat × γ)) (c : Nat) :
    (acc.any (fun p => decide (p.1 = c)) = true) ↔ c ∈ acc.map Prod.fst := by
  simp [List.any_eq_true, List.mem_map]

/-- Every entry the histogram loop ever records carries the corpus-wide count
of its class. -/
theorem histFold_counts (rows : List FinalRow) :
    ∀ (proc : List FinalRow) (acc : List (Nat × HistEntry)),
      (∀ p ∈ acc, p.2.count = value_counts rows p.1) →
      ∀ p ∈ proc.foldl (histStep rows) acc, p.2.count = value_counts rows p.1 := by
  intro proc
  induction proc with
  | nil => intro acc hacc; exact hacc
  | cons r rs ih =>
      intro acc hacc
      apply ih
      intro p hp
      unfold histStep at hp
      by_cases hmem : (acc.any (fun q => decide (q.1 = r.jm_hash_id_encoded)) = true)
      · rw [if_pos hmem] at hp
        exact hacc p hp
      · rw [if_neg hmem] at hp
        rcases List.mem_append.mp hp with h | h
        · exact hacc p h
        · rw [List.mem_singleton.mp h]

/-- The histogram loop never records the same class id twice. -/
theorem histFold_nodup (rows : List FinalRow) :
    ∀ (proc : List FinalRow) (acc : List (Nat × HistEntry)),
      (acc.map Prod.fst).Nodup →
      ((proc.foldl (histStep rows) acc).map Prod.fst).Nodup := by
  intro proc
  induction proc with
  | nil => intro acc hacc; exact hacc
  | cons r rs ih =>
      intro acc hacc
      apply ih
      unfold histStep
      by_cases hmem : (acc.any (fun q => decide (q.1 = r.jm_hash_id_encoded)) = true)
      · rw [if_pos hmem]
        exact hacc
      · rw [if_neg hmem]
        rw [List.map_append]
        rw [List.nodup_append]
        refine ⟨hacc, List.nodup_singleton _, ?_⟩
        intro x hxacc hxnew
        rw [List.mem_singleton.mp hxnew] at hxacc
        exact hmem ((any_key_eq acc _).mpr hxacc)

/-- The class ids the histogram loop has recorded are the initial ones plus
those of the processed rows. -/
theorem histFold_keys (rows : List FinalRow) :
    ∀ (proc : List FinalRow) (acc : List (Nat × HistEntry)) (x : Nat),
      (x ∈ (proc.foldl (histStep rows) acc).map Prod.fst ↔
        x ∈ acc.map Prod.fst ∨ x ∈ proc.map FinalRow.jm_hash_id_encoded) := by
  intro proc
  induction proc with
  | nil => intro acc x; simp
  | cons r rs ih =>
      intro acc x
      rw [List.foldl_cons, ih]
      unfold histStep
      by_cases hmem : (acc.any (fun q => decide (q.1 = r.jm_hash_id_encoded)) = true)
      · rw [if_pos hmem]
        have hc : r.jm_hash_id_encoded ∈ acc.map Prod.fst := (any_key_eq acc _).mp hmem
        rw [List.map_cons]
        constructor
        · rintro (h | h)
          · exact .inl h
          · exact .inr (List.mem_cons_of_mem _ h)
        · rintro (h | h)
          · exact .inl h
          · rcases List.mem_cons.mp h with he | h2
            · exact .inl (he ▸ hc)
            · exact .inr h2
      · rw [if_neg hmem]
        rw [List.map_append, List.map_cons]
        simp only [List.mem_append, List.mem_singleton, List.map_cons, List.mem_cons]
        tauto

/-- Summing the per-class counts over any duplicate-free list of exactly the
classes present reproduces the total number of elements. -/
theorem sum_counts_of_nodup_keys (K L : List Nat) (hn : K.Nodup)
    (hmem : ∀ c, c ∈ K ↔ c ∈ L) :
    (K.map (fun c => L.count c)).sum = L.length := by
  have hperm : K.Perm L.dedup := by
    rw [List.perm_ext_iff_of_nodup hn (List.nodup_dedup L)]
    intro a
    rw [hmem a, List.mem_dedup]
  rw [(hperm.map (fun c => L.count c)).sum_eq]
  exact List.sum_map_count_dedup_eq_length L

/-- `value_counts` is the count of the class in the id column. -/
theorem value_counts_eq_count (rows : List FinalRow) (c : Nat) :
    value_counts rows c = (rows.map FinalRow.jm_hash_id_encoded).count c := by
  unfold value_counts
  rw [← List.countP_eq_length_filter, List.count, List.countP_map]
  apply List.countP_congr
  intro r _
  by_cases h : r.jm_hash_id_encoded = c <;> simp [h, Function.comp]

/-- Claim C4: on every non-empty frame the corpus-wide aggregation succeeds,
every class id present gets an entry, every entry's count is the number of
rows carrying that class, and the counts sum to the number of rows. -/
theorem c4_theorem (rows : List FinalRow) (hne : rows ≠ []) :
    ∃ tbl, create_adviser_results_histogram rows = .ok tbl ∧
      (∀ p ∈ tbl, p.2.count = value_counts rows p.1) ∧
      (∀ c, c ∈ rows.map FinalRow.jm_hash_id_encoded → c ∈ tbl.map Prod.fst) ∧
      (tbl.map (fun p => p.2.count)).sum = rows.length := by
  match rows, hne with
  | r :: rs, _ =>
    have hperm : (List.insertionSort (fun p q : Nat × HistEntry => q.2.count ≤ p.2.count)
        ((r :: rs).foldl (histStep (r :: rs)) [])).Perm
        ((r :: rs).foldl (histStep (r :: rs)) []) :=
      List.perm_insertionSort _ _
    refine ⟨_, rfl, ?_, ?_, ?_⟩
    · intro p hp
      exact histFold_counts (r :: rs) (r :: rs) [] (by simp) p (hperm.mem_iff.mp hp)
    · intro c hc
      have h1 : c ∈ ((r :: rs).foldl (histStep (r :: rs)) []).map Prod.fst := by
        rw [histFold_keys]
        exact .inr hc
      exact ((hperm.map Prod.fst).mem_iff).mpr h1
    · rw [(hperm.map (fun p => p.2.count)).sum_eq]
      have hcong : ((r :: rs).foldl (histStep (r :: rs)) []).map (fun p => p.2.count) =
          ((r :: rs).foldl (histStep (r :: rs)) []).map
            (fun p => ((r :: rs).map FinalRow.jm_hash_id_encoded).count p.1) := by
        apply List.map_congr_left
        intro p hp
        rw [histFold_counts (r :: rs) (r :: rs) [] (by simp) p hp, value_counts_eq_count]
      rw [hcong]
      rw [show ((r :: rs).foldl (histStep (r :: rs)) []).map
            (fun p => ((r :: rs).map FinalRow.jm_hash_id_encoded).count p.1) =
          (((r :: rs).foldl (histStep (r :: rs)) []).map Prod.fst).map
            (fun c => ((r :: rs).map FinalRow.jm_hash_id_encoded).count c) by
        rw [List.map_map]; rfl]
      rw [sum_counts_of_nodup_keys _ _ (histFold_nodup (r :: rs) (r :: rs) [] (by simp))
            (fun c => by rw [histFold_keys]; simp)]
      exact List.length_map _ _

/-- Witness for C4 at a three-row frame over two classes. -/
theorem c4_witness :
    c4rows ≠ [] ∧
      ∃ tbl, create_adviser_results_histogram c4rows = .ok tbl ∧
        (∀ p ∈ tbl, p.2.count = value_counts c4rows p.1) ∧
        (∀ c, c ∈ c4rows.map FinalRow.jm_hash_id_encoded → c ∈ tbl.map Prod.fst) ∧
        (tbl.map (fun p => p.2.count)).sum = c4rows.length :=
  ⟨by decide, c4_theorem c4rows (by decide)⟩

/-- `indexOf` separates the members of a list. -/
theorem indexOf_inj_of_mem {α : Type} [DecidableEq α] (S : List α) (a b : α)
    (ha : a ∈ S) (hb : b ∈ S) (h : S.indexOf a = S.indexOf b) : a = b := by
  have h1 := List.getElem_indexOf (List.indexOf_lt_length.mpr ha)
  have h2 := List.getElem_indexOf (List.indexOf_lt_length.mpr hb)
  rw [← h1, ← h2]
  simp only [h]

/-- The class id of row `i` is the rank of its digest among the sorted
distinct digests of the batch. -/
theorem cfd_getD (l : List String) (i : Nat) (hi : i < l.length) :
    (create_final_dataframe l).getD i 0 =
      (sortedClasses l).indexOf (jmDigestVal (l.getD i "")) := by
  have h1 : i < (create_final_dataframe l).length := by
    simpa [create_final_dataframe, labelEncoderFitTransform] using hi
  rw [List.getD_eq_getElem _ _ h1, List.getD_eq_getElem _ _ hi]
  simp [create_final_dataframe, labelEncoderFitTransform, sortedClasses]

/-- Membership in the sorted class list is membership among the digests. -/
theorem mem_sortedClasses (l : List String) (d : Nat) :
    d ∈ sortedClasses l ↔ d ∈ l.map jmDigestVal := by
  unfold sortedClasses
  rw [(List.perm_insertionSort _ _).mem_iff, List.mem_dedup]

theorem nodup_sortedClasses (l : List String) : (sortedClasses l).Nodup :=
  ((List.perm_insertionSort _ _).nodup_iff).mpr (List.nodup_dedup _)

theorem length_sortedClasses (l : List String) :
    (sortedClasses l).length = (l.map jmDigestVal).dedup.length :=
  (List.perm_insertionSort _ _).length_eq

theorem sorted_sortedClasses (l : List String) :
    List.Sorted (fun a b : Nat => a ≤ b) (sortedClasses l) :=
  List.sorted_insertionSort _ _

/-- Batches over the same set of distinct messages rank against the same
sorted class list. -/
theorem sortedClasses_eq (l l' : List String) (hset : l.dedup.Perm l'.dedup) :
    sortedClasses l = sortedClasses l' := by
  have hmem : ∀ m, m ∈ l ↔ m ∈ l' := fun m => by
    have h := hset.mem_iff (a := m)
    simpa [List.mem_dedup] using h
  have h1 : ((l.map jmDigestVal).dedup).Perm ((l'.map jmDigestVal).dedup) := by
    rw [List.perm_ext_iff_of_nodup (List.nodup_dedup _) (List.nodup_dedup _)]
    intro d
    simp only [List.mem_dedup, List.mem_map]
    constructor
    · rintro ⟨m, hm, hd⟩
      exact ⟨m, (hmem m).mp hm, hd⟩
    · rintro ⟨m, hm, hd⟩
      exact ⟨m, (hmem m).mpr hm, hd⟩
  exact List.eq_of_perm_of_sorted
    ((List.perm_insertionSort _ _).trans (h1.trans (List.perm_insertionSort _ _).symm))
    (sorted_sortedClasses l) (sorted_sortedClasses l')

/-- The digest of row `i` is a member of the sorted class list. -/
theorem digest_mem_sortedClasses (l : List String) (i : Nat) (hi : i < l.length) :
    jmDigestVal (l.getD i "") ∈ sortedClasses l := by
  rw [mem_sortedClasses]
  exact List.mem_map_of_mem _ (by rw [List.getD_eq_getElem _ _ hi]; exact List.getElem_mem _)

/-- Claim C1, amended: two rows receive the same classId exactly when their
message digests (SHA-256 of the `raw_unicode_escape` encoding) are equal — in
particular byte-identical messages always share a classId; the classIds are
dense in `[0, K)` for `K` the number of DISTINCT DIGESTS of the batch; and
for a fixed set of distinct message strings the classId of a message is a
pure function of that set (rank of its digest among the lexicographically
sorted hex digests), independent of batch order. -/
theorem c1_amended (l l' : List String) (hset : l.dedup.Perm l'.dedup) :
    (∀ i j, i < l.length → j < l.length →
        ((create_final_dataframe l).getD i 0 = (create_final_dataframe l).getD j 0 ↔
          jmDigestVal (l.getD i "") = jmDigestVal (l.getD j ""))) ∧
    (∀ i, i < l.length →
        (create_final_dataframe l).getD i 0 < ((l.map jmDigestVal).dedup).length) ∧
    (∀ k, k < ((l.map jmDigestVal).dedup).length →
        ∃ i, i < l.length ∧ (create_final_dataframe l).getD i 0 = k) ∧
    (∀ i j, i < l.length → j < l'.length → l.getD i "" = l'.getD j "" →
        (create_final_dataframe l).getD i 0 = (create_final_dataframe l').getD j 0) := by
  refine ⟨?_, ?_, ?_, ?_⟩
  · intro i j hi hj
    rw [cfd_getD l i hi, cfd_getD l j hj]
    constructor
    · intro h
      exact indexOf_inj_of_mem (sortedClasses l) _ _
        (digest_mem_sortedClasses l i hi) (digest_mem_sortedClasses l j hj) h
    · intro h
      rw [h]
  · intro i hi
    rw [cfd_getD l i hi, ← length_sortedClasses]
    exact List.indexOf_lt_length.mpr (digest_mem_sortedClasses l i hi)
  · intro k hk
    rw [← length_sortedClasses] at hk
    have hd : (sortedClasses l)[k] ∈ sortedClasses l := List.getElem_mem _
    obtain ⟨m, hm, hdm⟩ := List.mem_map.mp ((mem_sortedClasses l _).mp hd)
    obtain ⟨i, hi, hgi⟩ := List.mem_iff_getElem.mp hm
    refine ⟨i, hi, ?_⟩
    rw [cfd_getD l i hi]
    rw [show l.getD i "" = m by rw [List.getD_eq_getElem _ _ hi, hgi]]
    rw [hdm]
    exact List.indexOf_getElem (nodup_sortedClasses l) k hk
  · intro i j hi hj heq
    rw [cfd_getD l i hi, cfd_getD l' j hj, sortedClasses_eq l l' hset, heq]

/-- Witness for C1 amended: the batches ["a", "b"] and ["b", "a"] carry the
same set of distinct messages. -/
theorem c1_witness :
    (["a", "b"] : List String).dedup.Perm (["b", "a"] : List String).dedup ∧
    ((∀ i j, i < (["a", "b"] : List String).length → j < (["a", "b"] : List String).length →
        ((create_final_dataframe ["a", "b"]).getD i 0 =
            (create_final_dataframe ["a", "b"]).getD j 0 ↔
          jmDigestVal ((["a", "b"] : List String).getD i "") =
            jmDigestVal ((["a", "b"] : List String).getD j ""))) ∧
    (∀ i, i < (["a", "b"] : List String).length →
        (create_final_dataframe ["a", "b"]).getD i 0 <
          (((["a", "b"] : List String).map jmDigestVal).dedup).length) ∧
    (∀ k, k < (((["a", "b"] : List String).map jmDigestVal).dedup).length →
        ∃ i, i < (["a", "b"] : List String).length ∧
          (create_final_dataframe ["a", "b"]).getD i 0 = k) ∧
    (∀ i j, i < (["a", "b"] : List String).length → j < (["b", "a"] : List String).length →
        (["a", "b"] : List String).getD i "" = (["b", "a"] : List String).getD j "" →
        (create_final_dataframe ["a", "b"]).getD i 0 =
          (create_final_dataframe ["b", "a"]).getD j 0)) :=
  ⟨by decide, c1_amended ["a", "b"] ["b", "a"] (by decide)⟩

end ThothLab
